import Mathlib

/-!
Verification development for the LyricFlow Studio time-synchronization core.

The definitions below are a shallow embedding of the TypeScript source:
`src/utils/lrcParser.ts` (parseLRC, formatTime, exportLRC), the store and
sync handlers of `src/App.tsx` / `src/components/LyricEditor.tsx` /
`src/components/WaveformPlayer.tsx`, and `src/services/geminiService.ts`.

Modelling conventions:
- JavaScript numbers are modelled as exact rationals (the specification
  treats timestamps as real seconds); `NaN` is tracked explicitly where the
  code can produce it (`JsFloat.nan`), and a store update whose value would
  be an infinity (not representable as a rational) is modelled as `none`.
- Strings are modelled as `String` / `List Char`; `Date.now()` and other id
  salts are passed in as explicit parameters.
- `Array.prototype.sort` with the comparator `(a, b) => a.timestamp - b.timestamp`
  is a stable ascending sort; every stable sort for a total preorder computes
  the same list, so it is modelled by a stable insertion sort.
-/

/-- A lyric record, from `src/types.ts`: `{ id: string; timestamp: number; text: string }`. -/
structure LyricLine where
  id : String
  timestamp : ℚ
  text : String
deriving DecidableEq

/-- Stable insertion of `a` into `l`: `a` goes in front of the first element
whose timestamp is not strictly smaller, so an element inserted from the left
stays in front of elements with equal timestamps. -/
def insertSorted (a : LyricLine) : List LyricLine → List LyricLine
  | [] => [a]
  | b :: l => if b.timestamp < a.timestamp then b :: insertSorted a l else a :: b :: l

/-- Model of `arr.sort((a, b) => a.timestamp - b.timestamp)`: the stable
ascending sort by timestamp (stable insertion sort). -/
def sortByTimestamp (l : List LyricLine) : List LyricLine :=
  l.foldr insertSorted []

/-- ASCII digit test, the `\d` character class of the source regexp. -/
def isAsciiDigit (c : Char) : Bool := '0' ≤ c && c ≤ '9'

/-- Numeric value of an ASCII digit character. -/
def digitVal (c : Char) : Nat := c.toNat - '0'.toNat

/-- ECMAScript line terminators (LF, CR, LS, PS); the characters `.` does not
match in a JavaScript regular expression. -/
def isLineTerm (c : Char) : Bool :=
  c = '\n' || c = '\r' || c.toNat = 0x2028 || c.toNat = 0x2029

/-- ECMAScript WhiteSpace together with LineTerminator: the character set
skipped by `parseFloat` and removed by `String.prototype.trim`. -/
def isJsWs (c : Char) : Bool :=
  c = ' ' || c = '\t' || c = '\n' || c = '\r' || c.toNat = 11 || c.toNat = 12 ||
  c.toNat = 0xa0 || c.toNat = 0x1680 || (0x2000 ≤ c.toNat && c.toNat ≤ 0x200a) ||
  c.toNat = 0x2028 || c.toNat = 0x2029 || c.toNat = 0x202f || c.toNat = 0x205f ||
  c.toNat = 0x3000 || c.toNat = 0xfeff

/-- Model of `String.prototype.trim`: drop leading and trailing whitespace. -/
def jsTrim (l : List Char) : List Char :=
  ((l.dropWhile isJsWs).reverse.dropWhile isJsWs).reverse

/-- Model of `str.split('\n')` (and, with another separator, `str.split(':')`):
splitting an empty string yields one empty chunk, exactly as in JavaScript. -/
def splitChar (sep : Char) : List Char → List (List Char)
  | [] => [[]]
  | c :: rest =>
    if c = sep then [] :: splitChar sep rest
    else
      match splitChar sep rest with
      | h :: t => (c :: h) :: t
      | [] => [[c]]

/-- The `(.*)` capture group of the source regexp: the run of characters up to
the first line terminator. -/
def dotStar (l : List Char) : List Char := l.takeWhile (fun c => !isLineTerm c)

/-- Result of matching one line against `^\[(\d{2}):(\d{2})\.(\d{2,3})\](.*)`. -/
structure TimeTagMatch where
  minutes : Nat
  seconds : Nat
  frac : Nat
  fracLen : Nat
  rest : List Char
deriving DecidableEq

/-- Fraction tail after the first two fractional digits: either `]` directly
(two-digit fraction) or a third digit followed by `]` (three-digit fraction,
which the greedy `\d{2,3}` prefers when it is available). -/
def matchFracTail : List Char → Option (Option Char × List Char)
  | [] => none
  | [d] => if d = ']' then some (none, []) else none
  | d :: e :: r =>
    if d = ']' then some (none, e :: r)
    else if e = ']' then if isAsciiDigit d then some (some d, r) else none
    else none

/-- Model of `line.match(/^\[(\d{2}):(\d{2})\.(\d{2,3})\](.*)/)` together with
`parseInt` on the captured digit groups. -/
def matchLine : List Char → Option TimeTagMatch
  | '[' :: m1 :: m2 :: ':' :: s1 :: s2 :: '.' :: f1 :: f2 :: rest =>
    if isAsciiDigit m1 && isAsciiDigit m2 && isAsciiDigit s1 && isAsciiDigit s2 &&
        isAsciiDigit f1 && isAsciiDigit f2 then
      match matchFracTail rest with
      | some (none, r) =>
        some ⟨10 * digitVal m1 + digitVal m2, 10 * digitVal s1 + digitVal s2,
              10 * digitVal f1 + digitVal f2, 2, dotStar r⟩
      | some (some d3, r) =>
        some ⟨10 * digitVal m1 + digitVal m2, 10 * digitVal s1 + digitVal s2,
              100 * digitVal f1 + 10 * digitVal f2 + digitVal d3, 3, dotStar r⟩
      | none => none
    else none
  | _ => none

/-- Total seconds of a matched tag:
`minutes * 60 + seconds + milliseconds / msDivisor` with
`msDivisor = match[3].length === 3 ? 1000 : 100`. -/
def lrcTimestamp (minutes seconds frac fracLen : Nat) : ℚ :=
  minutes * 60 + seconds + (frac : ℚ) / (if fracLen = 3 then 1000 else 100)

/-- Index-decorated list, the `(line, index)` pairs seen by `lines.forEach`. -/
def withIndex {α : Type} (i : Nat) : List α → List (Nat × α)
  | [] => []
  | a :: l => (i, a) :: withIndex (i + 1) l

/-- Generated id `line-${index}-${Date.now()}`; the clock value is a parameter. -/
def mkLineId (index now : Nat) : String :=
  "line-" ++ toString index ++ "-" ++ toString now

/-- Model of `parseLRC` from `src/utils/lrcParser.ts`: split on newlines, match
each line, convert the tag to seconds, trim the text, and sort by timestamp. -/
def parseLRC (now : Nat) (lrcContent : String) : List LyricLine :=
  sortByTimestamp <|
    (withIndex 0 (splitChar '\n' lrcContent.toList)).filterMap fun p =>
      (matchLine p.2).map fun m =>
        { id := mkLineId p.1 now,
          timestamp := lrcTimestamp m.minutes m.seconds m.frac m.fracLen,
          text := String.mk (jsTrim m.rest) }

/-- Decimal digit list of a natural number (fuel-based so that it is
structurally recursive); `natDigits (n + 1) n` is the decimal numeral of `n`. -/
def natDigits : Nat → Nat → List Char
  | 0, _ => []
  | fuel + 1, n =>
    if n < 10 then [Char.ofNat (48 + n)]
    else natDigits fuel (n / 10) ++ [Char.ofNat (48 + n % 10)]

/-- Template-literal rendering `${num}` of an integral JavaScript number. -/
def jsNumToChars (n : ℤ) : List Char :=
  if n < 0 then '-' :: natDigits (n.natAbs + 1) n.natAbs
  else natDigits (n.toNat + 1) n.toNat

/-- Model of `format = (num) => (num < 10 ? `0${num}` : `${num}`)`. -/
def fmt2 (n : ℤ) : List Char :=
  if n < 10 then '0' :: jsNumToChars n else jsNumToChars n

/-- Truncation toward zero, the rounding used by the JavaScript `%` operator. -/
def ratTrunc (q : ℚ) : ℤ := if 0 ≤ q then ⌊q⌋ else ⌈q⌉

/-- The JavaScript remainder `x % y` (sign follows the dividend). -/
def jsRem (x y : ℚ) : ℚ := x - y * ratTrunc (x / y)

/-- Model of `formatTime` from `src/utils/lrcParser.ts`:
`[MM:SS.ff]` with `mins = Math.floor(seconds / 60)`,
`secs = Math.floor(seconds % 60)`, `ms = Math.floor((seconds % 1) * 100)`. -/
def formatTime (seconds : ℚ) : List Char :=
  '[' :: fmt2 ⌊seconds / 60⌋ ++ ':' :: fmt2 ⌊jsRem seconds 60⌋ ++
    '.' :: fmt2 ⌊jsRem seconds 1 * 100⌋ ++ [']']

/-- Model of `.join('\n')`. -/
def joinNl : List (List Char) → List Char
  | [] => []
  | [x] => x
  | x :: y :: tl => x ++ '\n' :: joinNl (y :: tl)

/-- Model of `exportLRC`: one line `${formatTime(line.timestamp)} ${line.text}`
per record, joined with newlines. -/
def exportLRC (lyrics : List LyricLine) : String :=
  String.mk (joinNl (lyrics.map fun l => formatTime l.timestamp ++ ' ' :: l.text.toList))

/-- Editing mode, from `src/types.ts`. -/
inductive AppMode
  | EDIT
  | TAP_SYNC
deriving DecidableEq

/-- The pieces of `App` component state that the synchronization core reads
and writes: the store, the mode, the tap-sync cursor, the active line, and
the last toast message. -/
structure AppState where
  lyrics : List LyricLine
  mode : AppMode
  syncIndex : Nat
  activeLineId : Option String
  notification : Option String
deriving DecidableEq

/-- Result of a JavaScript `parseFloat` call: `NaN`, a signed infinity, or a
finite value (idealized as an exact rational). -/
inductive JsFloat
  | nan
  | inf (neg : Bool)
  | fin (val : ℚ)
deriving DecidableEq

/-- Value of a digit run read most-significant first. -/
def digitsVal (ds : List Char) : Nat := ds.foldl (fun a c => 10 * a + digitVal c) 0

/-- Value of a digit run read as a decimal fraction. -/
def fracDigitsVal (ds : List Char) : ℚ := (digitsVal ds : ℚ) / 10 ^ ds.length

/-- Exponent denoted by an `ExponentPart` prefix (`e`/`E`, optional sign,
digits); an incomplete exponent contributes nothing, as in `parseFloat`. -/
def expValue : List Char → ℤ
  | c :: rest =>
    if c = 'e' || c = 'E' then
      match rest with
      | '+' :: r => if (r.takeWhile isAsciiDigit) = [] then 0 else (digitsVal (r.takeWhile isAsciiDigit) : ℤ)
      | '-' :: r => if (r.takeWhile isAsciiDigit) = [] then 0 else -(digitsVal (r.takeWhile isAsciiDigit) : ℤ)
      | r => if (r.takeWhile isAsciiDigit) = [] then 0 else (digitsVal (r.takeWhile isAsciiDigit) : ℤ)
    else 0
  | [] => 0

/-- Unsigned mantissa prefix of a decimal literal: `digits [. digits]` or
`. digits`; returns its value and the remaining characters. -/
def mantissa (l : List Char) : Option (ℚ × List Char) :=
  let intDs := l.takeWhile isAsciiDigit
  let r1 := l.dropWhile isAsciiDigit
  if intDs = [] then
    match r1 with
    | '.' :: r2 =>
      let fds := r2.takeWhile isAsciiDigit
      if fds = [] then none else some (fracDigitsVal fds, r2.dropWhile isAsciiDigit)
    | _ => none
  else
    match r1 with
    | '.' :: r2 => some ((digitsVal intDs : ℚ) + fracDigitsVal (r2.takeWhile isAsciiDigit), r2.dropWhile isAsciiDigit)
    | _ => some ((digitsVal intDs : ℚ), r1)

/-- Model of `parseFloat`: skip whitespace, optional sign, then either the
literal `Infinity` or a decimal mantissa with optional exponent; `NaN` when no
numeric prefix exists. Finite values are exact rationals. -/
def parseFloat (s : String) : JsFloat :=
  let l := s.toList.dropWhile isJsWs
  let signed : Bool × List Char :=
    match l with
    | '-' :: r => (true, r)
    | '+' :: r => (false, r)
    | r => (false, r)
  let neg := signed.1
  let r := signed.2
  if r.take 8 = ['I', 'n', 'f', 'i', 'n', 'i', 't', 'y'] then JsFloat.inf neg
  else
    match mantissa r with
    | none => JsFloat.nan
    | some (m, rest) =>
      let v := m * (10 : ℚ) ^ expValue rest
      JsFloat.fin (if neg then -v else v)

/-- Model of `handleTimeChange` from `src/components/LyricEditor.tsx`: split
the field on `:`; with exactly two parts that both parse to numbers, set the
matching line's timestamp to `min * 60 + sec` and re-sort; otherwise leave the
sequence untouched. A `none` result marks the one corner the rational model
cannot represent: both parts pass the `isNaN` checks but an operand is an
infinity, so the code would store a non-finite timestamp. -/
def handleTimeChange (lyrics : List LyricLine) (id : String) (newTimeStr : String) :
    Option (List LyricLine) :=
  match splitChar ':' newTimeStr.toList with
  | [p0, p1] =>
    match parseFloat (String.mk p0), parseFloat (String.mk p1) with
    | JsFloat.fin min, JsFloat.fin sec =>
      let total := min * 60 + sec
      some (sortByTimestamp (lyrics.map fun l => if l.id = id then { l with timestamp := total } else l))
    | JsFloat.nan, _ => some lyrics
    | _, JsFloat.nan => some lyrics
    | _, _ => none
  | _ => some lyrics

/-- Model of `handleTextChange`: replace the text of the line with matching id. -/
def handleTextChange (lyrics : List LyricLine) (id : String) (newText : String) :
    List LyricLine :=
  lyrics.map fun l => if l.id = id then { l with text := newText } else l

/-- Model of `handleDelete`: drop the line with matching id. -/
def handleDelete (lyrics : List LyricLine) (id : String) : List LyricLine :=
  lyrics.filter fun l => l.id ≠ id

/-- Model of the Enter branch of `handleKeyDown`: splice a fresh empty line
with timestamp `lyrics[index].timestamp + 2` in after `index`, without
re-sorting. `none` marks the out-of-bounds read `lyrics[index].timestamp`
(a TypeError), unreachable from the UI where `index` is a rendered row. -/
def handleEnterInsert (lyrics : List LyricLine) (index : Nat) (now : Nat) :
    Option (List LyricLine) :=
  match lyrics.get? index with
  | none => none
  | some line =>
    some (lyrics.insertIdx (index + 1)
      { id := "line-" ++ toString now, timestamp := line.timestamp + 2, text := "" })

/-- Model of `handleAddLine` from `src/App.tsx`: append a fresh empty line at
the current playback time, then sort by timestamp. -/
def handleAddLine (lyrics : List LyricLine) (currentTime : ℚ) (now : Nat) : List LyricLine :=
  sortByTimestamp (lyrics ++ [{ id := "line-" ++ toString now, timestamp := currentTime, text := "" }])

/-- Model of the active-line computation inside `handleTimeUpdate`
(`src/App.tsx`): the last line with `timestamp <= time + 0.2`, found by
reversing and taking the first match. -/
def computeActiveLine (lyrics : List LyricLine) (time : ℚ) : Option String :=
  (lyrics.reverse.find? fun l => l.timestamp ≤ time + 0.2).map (·.id)

/-- Model of the state update of `handleTimeUpdate`: `setActiveLineId` runs
only when a line qualified and differs from the current one, so the stored id
becomes the qualifying id and is otherwise retained. -/
def nextActiveLineId (lyrics : List LyricLine) (activeLineId : Option String) (time : ℚ) :
    Option String :=
  match computeActiveLine lyrics time with
  | some i => some i
  | none => activeLineId

/-- Model of `handleTapSync` (`src/App.tsx`); `playerTime` stands for
`playerRef.current?.getCurrentTime() || 0`, the playback port's current time
with a missing player defaulting to `0`. -/
def handleTapSync (s : AppState) (playerTime : ℚ) : AppState :=
  if s.mode ≠ AppMode.TAP_SYNC then s
  else if h : s.syncIndex < s.lyrics.length then
    let updatedLine := { s.lyrics.get ⟨s.syncIndex, h⟩ with timestamp := playerTime }
    { s with
      lyrics := s.lyrics.set s.syncIndex updatedLine,
      activeLineId := some updatedLine.id,
      syncIndex := s.syncIndex + 1 }
  else { s with notification := some ("End of lines reached") }

/-- Model of `toggleMode` (`src/App.tsx`). -/
def toggleMode (s : AppState) : AppState :=
  if s.mode = AppMode.EDIT then
    { s with
      mode := AppMode.TAP_SYNC,
      syncIndex := 0,
      notification := some ("Entered Tap Sync Mode. Press SPACE to timestamp lines.") }
  else { s with mode := AppMode.EDIT, notification := some ("Back to Edit Mode.") }

/-- Possible outcomes of the external Gemini call in
`src/services/geminiService.ts`: missing API key, a thrown service error, or a
response whose `text` field may be absent. -/
inductive SuggestionOutcome
  | missingKey
  | serviceError
  | ok (text : Option String)

/-- Model of `generateLyricSuggestion`: failures become fixed placeholder
strings, a missing response text becomes the empty string, and response text
is trimmed (`response.text?.trim() || ""`). -/
def generateLyricSuggestion : SuggestionOutcome → String
  | SuggestionOutcome.missingKey => "Please configure API_KEY to use AI features."
  | SuggestionOutcome.serviceError => "Error generating suggestion."
  | SuggestionOutcome.ok none => ""
  | SuggestionOutcome.ok (some t) => String.mk (jsTrim t.toList)

/-- Context sent with a suggestion request:
`lyrics.slice(Math.max(0, index - 3), index + 1).map(l => l.text)`. -/
def suggestionContext (lyrics : List LyricLine) (index : Nat) : List String :=
  ((lyrics.take (index + 1)).drop (index - 3)).map (·.text)

/-- The store contents after the suggestion response arrives, from
`handleAiSuggestion` (`src/App.tsx`). The async handler closed over the
`lyrics` array current when the request was issued (`snapshot`); the sequence
current at response time (`currentLyrics`) is never read by the handler. With
a non-empty suggestion the handler splices a new line into the snapshot after
`index` and installs that via `setLyrics`, replacing whatever `currentLyrics`
had become; with an empty suggestion `setLyrics` is not called, so the state
stays `currentLyrics`. `none` marks the TypeError of reading
`lyrics[index].timestamp` when `index` is out of bounds of the snapshot. -/
def lyricsAfterResponse (snapshot currentLyrics : List LyricLine) (index : Nat)
    (newId suggestion : String) : Option (List LyricLine) :=
  if suggestion = "" then some currentLyrics
  else
    match snapshot.get? index with
    | none => none
    | some line =>
      some (snapshot.insertIdx (index + 1)
        { id := newId, timestamp := line.timestamp + 3, text := suggestion })

/-- Sortedness invariant of the store: non-decreasing timestamps. -/
def TsSorted (l : List LyricLine) : Prop :=
  l.Pairwise fun a b => a.timestamp ≤ b.timestamp

/-- Shape demanded by the specification for a line that yields a record,
written from the specification's words (not from the code) for comparison
with `matchLine`: a leading bracketed timestamp of two-digit minutes,
two-digit seconds, and a two- or three-digit fraction, immediately followed
by the lyric text. -/
def SpecLineShape (line : List Char) : Prop :=
  ∃ (m1 m2 s1 s2 : Char) (fds text : List Char),
    (fds.length = 2 ∨ fds.length = 3) ∧
    isAsciiDigit m1 = true ∧ isAsciiDigit m2 = true ∧
    isAsciiDigit s1 = true ∧ isAsciiDigit s2 = true ∧
    (∀ c ∈ fds, isAsciiDigit c = true) ∧
    line = '[' :: m1 :: m2 :: ':' :: s1 :: s2 :: '.' :: fds ++ ']' :: text

theorem mem_insertSorted {x a : LyricLine} {l : List LyricLine} :
    x ∈ insertSorted a l ↔ x = a ∨ x ∈ l := by
  induction l with
  | nil => simp [insertSorted]
  | cons b l ih =>
    by_cases h : b.timestamp < a.timestamp
    · simp only [insertSorted, if_pos h, List.mem_cons, ih]
      tauto
    · simp only [insertSorted, if_neg h, List.mem_cons]

theorem insertSorted_pairwise {a : LyricLine} {l : List LyricLine}
    (hl : TsSorted l) : TsSorted (insertSorted a l) := by
  unfold TsSorted at hl ⊢
  induction l with
  | nil => simp [insertSorted]
  | cons b l ih =>
    rw [List.pairwise_cons] at hl
    by_cases h : b.timestamp < a.timestamp
    · rw [insertSorted, if_pos h, List.pairwise_cons]
      refine ⟨fun x hx => ?_, ih hl.2⟩
      rcases mem_insertSorted.1 hx with rfl | hx
      · exact le_of_lt h
      · exact hl.1 x hx
    · rw [insertSorted, if_neg h, List.pairwise_cons]
      push_neg at h
      refine ⟨fun x hx => ?_, ?_⟩
      · rcases List.mem_cons.1 hx with rfl | hx
        · exact h
        · exact le_trans h (hl.1 x hx)
      · rw [List.pairwise_cons]
        exact hl

theorem sortByTimestamp_pairwise (l : List LyricLine) : TsSorted (sortByTimestamp l) := by
  induction l with
  | nil => exact List.Pairwise.nil
  | cons a l ih => exact insertSorted_pairwise ih

theorem insertSorted_of_le {a : LyricLine} {l : List LyricLine}
    (h : ∀ x ∈ l, a.timestamp ≤ x.timestamp) : insertSorted a l = a :: l := by
  cases l with
  | nil => rfl
  | cons b l =>
    rw [insertSorted, if_neg]
    exact not_lt.2 (h b (List.mem_cons_self b l))

theorem sortByTimestamp_of_sorted {l : List LyricLine} (hl : TsSorted l) :
    sortByTimestamp l = l := by
  unfold TsSorted at hl
  induction l with
  | nil => rfl
  | cons a l ih =>
    rw [List.pairwise_cons] at hl
    show insertSorted a (sortByTimestamp l) = a :: l
    rw [ih hl.2, insertSorted_of_le hl.1]

theorem insertSorted_ne_nil (a : LyricLine) (l : List LyricLine) :
    insertSorted a l ≠ [] := by
  cases l with
  | nil => simp [insertSorted]
  | cons b l =>
    rw [insertSorted]
    by_cases h : b.timestamp < a.timestamp <;> simp [h]

theorem sortByTimestamp_eq_nil_iff {l : List LyricLine} :
    sortByTimestamp l = [] ↔ l = [] := by
  cases l with
  | nil => simp [sortByTimestamp]
  | cons a l =>
    simp only [List.cons_ne_nil, iff_false]
    exact insertSorted_ne_nil a _

theorem find?_eq_head?_filter {α : Type} (p : α → Bool) (l : List α) :
    l.find? p = (l.filter p).head? := by
  induction l with
  | nil => rfl
  | cons a l ih =>
    by_cases h : p a
    · simp [List.find?_cons, List.filter_cons, h]
    · simp only [List.find?_cons, List.filter_cons, h, Bool.false_eq_true, if_false,
        cond_false]
      exact ih

theorem reverse_find?_eq_getLast?_filter {α : Type} (p : α → Bool) (l : List α) :
    l.reverse.find? p = (l.filter p).getLast? := by
  rw [find?_eq_head?_filter, List.filter_reverse, List.head?_reverse]

theorem length_withIndex {α : Type} (i : Nat) (l : List α) :
    (withIndex i l).length = l.length := by
  induction l generalizing i with
  | nil => rfl
  | cons a l ih => simp [withIndex, ih]

theorem getElem_withIndex {α : Type} (i : Nat) (l : List α) (j : Nat)
    (hj : j < (withIndex i l).length) (hj' : j < l.length) :
    (withIndex i l)[j] = (i + j, l[j]) := by
  induction l generalizing i j with
  | nil => exact absurd hj' (by simp)
  | cons a l ih =>
    cases j with
    | zero => simp [withIndex]
    | succ j =>
      have := ih (i + 1) j (by simpa [withIndex, Nat.succ_lt_succ_iff] using hj)
        (by simpa [Nat.succ_lt_succ_iff] using hj')
      simp only [withIndex, List.getElem_cons_succ, this]
      congr 1
      omega

theorem withIndex_map {α β : Type} (i : Nat) (f : α → β) (l : List α) :
    withIndex i (l.map f) = (withIndex i l).map fun p => (p.1, f p.2) := by
  induction l generalizing i with
  | nil => rfl
  | cons a l ih => simp [withIndex, ih]

theorem mem_withIndex {α : Type} {i : Nat} {l : List α} {p : Nat × α}
    (hp : p ∈ withIndex i l) : p.2 ∈ l := by
  induction l generalizing i with
  | nil => cases hp
  | cons a l ih =>
    rcases List.mem_cons.1 hp with rfl | hp
    · exact List.mem_cons_self a l
    · exact List.mem_cons_of_mem a (ih hp)

theorem pairwise_withIndex {α : Type} {R : α → α → Prop} {l : List α} (i : Nat)
    (hl : l.Pairwise R) : (withIndex i l).Pairwise fun p q => R p.2 q.2 := by
  induction l generalizing i with
  | nil => exact List.Pairwise.nil
  | cons a l ih =>
    rw [List.pairwise_cons] at hl
    rw [withIndex, List.pairwise_cons]
    exact ⟨fun q hq => hl.1 q.2 (mem_withIndex hq), ih (i + 1) hl.2⟩

theorem filterMap_eq_map_of_forall_some {α β : Type} {f : α → Option β} {g : α → β}
    {l : List α} (h : ∀ x ∈ l, f x = some (g x)) : l.filterMap f = l.map g := by
  induction l with
  | nil => rfl
  | cons a l ih =>
    rw [List.filterMap_cons, h a (List.mem_cons_self a l), List.map_cons,
      ih fun x hx => h x (List.mem_cons_of_mem a hx)]

theorem splitChar_no_sep {sep : Char} {l : List Char} (h : sep ∉ l) :
    splitChar sep l = [l] := by
  induction l with
  | nil => rfl
  | cons c l ih =>
    rw [splitChar, if_neg (by rintro rfl; exact h (List.mem_cons_self _ _)),
      ih fun hx => h (List.mem_cons_of_mem c hx)]

theorem splitChar_append_sep {sep : Char} {x rest : List Char} (h : sep ∉ x) :
    splitChar sep (x ++ sep :: rest) = x :: splitChar sep rest := by
  induction x with
  | nil =>
    show splitChar sep (sep :: rest) = [] :: splitChar sep rest
    rw [splitChar, if_pos rfl]
  | cons c x ih =>
    show splitChar sep (c :: (x ++ sep :: rest)) = (c :: x) :: splitChar sep rest
    rw [splitChar, if_neg (by rintro rfl; exact h (List.mem_cons_self _ _)),
      ih fun hx => h (List.mem_cons_of_mem c hx)]

theorem splitChar_joinNl {ls : List (List Char)} (hne : ls ≠ [])
    (h : ∀ l ∈ ls, '\n' ∉ l) : splitChar '\n' (joinNl ls) = ls := by
  induction ls with
  | nil => exact absurd rfl hne
  | cons x tl ih =>
    cases tl with
    | nil =>
      show splitChar '\n' x = [x]
      exact splitChar_no_sep (h x (List.mem_cons_self x []))
    | cons y tl' =>
      show splitChar '\n' (x ++ '\n' :: joinNl (y :: tl')) = x :: (y :: tl')
      rw [splitChar_append_sep (h x (List.mem_cons_self x _)),
        ih (by simp) fun l hl => h l (List.mem_cons_of_mem x hl)]

theorem digitChar_facts : ∀ d : Nat, d < 10 →
    isAsciiDigit (Char.ofNat (48 + d)) = true ∧ digitVal (Char.ofNat (48 + d)) = d ∧
    isLineTerm (Char.ofNat (48 + d)) = false ∧ Char.ofNat (48 + d) ≠ '\n' := by
  decide

theorem natDigits_of_lt_ten {fuel n : Nat} (hn : n < 10) (hf : 1 ≤ fuel) :
    natDigits fuel n = [Char.ofNat (48 + n)] := by
  cases fuel with
  | zero => omega
  | succ fuel => rw [natDigits, if_pos hn]

theorem natDigits_of_two_digits {fuel n : Nat} (h10 : 10 ≤ n) (hn : n < 100)
    (hf : 2 ≤ fuel) :
    natDigits fuel n = [Char.ofNat (48 + n / 10), Char.ofNat (48 + n % 10)] := by
  cases fuel with
  | zero => omega
  | succ fuel =>
    rw [natDigits, if_neg (by omega),
      natDigits_of_lt_ten (by omega) (by omega)]
    rfl

theorem fmt2_eq_digits {n : ℤ} (h0 : 0 ≤ n) (hn : n < 100) :
    fmt2 n = [Char.ofNat (48 + n.toNat / 10), Char.ofNat (48 + n.toNat % 10)] := by
  by_cases h : n < 10
  · rw [fmt2, if_pos h, jsNumToChars, if_neg (by omega),
      natDigits_of_lt_ten (by omega) (by omega)]
    have : n.toNat / 10 = 0 := by omega
    rw [this]
    have : (48 + n.toNat % 10) = 48 + n.toNat := by omega
    rw [this]
  · rw [fmt2, if_neg h, jsNumToChars, if_neg (by omega),
      natDigits_of_two_digits (by omega) (by omega) (by omega)]

theorem jsTrim_space_cons {l : List Char} (h : jsTrim l = l) :
    jsTrim (' ' :: l) = l := by
  rw [jsTrim, List.dropWhile_cons_of_pos (by decide)]
  exact h

theorem dotStar_of_no_lineTerm {l : List Char} (h : ∀ c ∈ l, isLineTerm c = false) :
    dotStar l = l := by
  rw [dotStar, List.takeWhile_eq_self_iff]
  intro c hc
  rw [h c hc]
  rfl

theorem jsRem_sixty (t : ℚ) (h0 : 0 ≤ t) : jsRem t 60 = t - 60 * ⌊t / 60⌋ := by
  rw [jsRem, ratTrunc, if_pos (div_nonneg h0 (by norm_num))]

theorem jsRem_one (t : ℚ) (h0 : 0 ≤ t) : jsRem t 1 = t - ⌊t⌋ := by
  rw [jsRem, ratTrunc, div_one, if_pos h0, one_mul]

theorem matchLine_formatTime (t : ℚ) (h0 : 0 ≤ t) (h1 : t < 6000)
    (text : List Char) (htext : ∀ c ∈ text, isLineTerm c = false) :
    matchLine (formatTime t ++ ' ' :: text) =
      some ⟨⌊t / 60⌋.toNat, ⌊jsRem t 60⌋.toNat, ⌊jsRem t 1 * 100⌋.toNat, 2, ' ' :: text⟩ ∧
    lrcTimestamp ⌊t / 60⌋.toNat ⌊jsRem t 60⌋.toNat ⌊jsRem t 1 * 100⌋.toNat 2
      = (⌊100 * t⌋ : ℚ) / 100 := by
  have h60 := jsRem_sixty t h0
  have h1r := jsRem_one t h0
  have hflo := Int.floor_le (t / 60)
  have hfup := Int.lt_floor_add_one (t / 60)
  have hm0 : (0 : ℤ) ≤ ⌊t / 60⌋ := Int.floor_nonneg.2 (div_nonneg h0 (by norm_num))
  have hm1 : ⌊t / 60⌋ < 100 := by
    rw [Int.floor_lt]
    push_cast
    linarith
  have hs0 : (0 : ℤ) ≤ ⌊jsRem t 60⌋ := by
    rw [h60]
    refine Int.floor_nonneg.2 ?_
    have : (60 : ℚ) * ⌊t / 60⌋ ≤ 60 * (t / 60) := by
      have h60' : (0:ℚ) < 60 := by norm_num
      exact mul_le_mul_of_nonneg_left hflo (by norm_num)
    have : (60 : ℚ) * (t / 60) = t := by ring
    linarith [mul_le_mul_of_nonneg_left hflo (show (0:ℚ) ≤ 60 by norm_num)]
  have hs1 : ⌊jsRem t 60⌋ < 60 := by
    rw [h60, Int.floor_lt]
    push_cast
    have : t / 60 < ⌊t / 60⌋ + 1 := hfup
    have h2 : t < 60 * (⌊t / 60⌋ : ℚ) + 60 := by
      have := mul_lt_mul_of_pos_left hfup (show (0:ℚ) < 60 by norm_num)
      have he : (60 : ℚ) * (t / 60) = t := by ring
      linarith
    linarith
  have hfr0 : (0 : ℚ) ≤ t - ⌊t⌋ := by linarith [Int.floor_le t]
  have hfr1 : t - ⌊t⌋ < 1 := by linarith [Int.lt_floor_add_one t]
  have hf0 : (0 : ℤ) ≤ ⌊jsRem t 1 * 100⌋ := by
    rw [h1r]
    exact Int.floor_nonneg.2 (by nlinarith)
  have hf1 : ⌊jsRem t 1 * 100⌋ < 100 := by
    rw [h1r, Int.floor_lt]
    push_cast
    nlinarith
  have hsv : ⌊jsRem t 60⌋ = ⌊t⌋ - 60 * ⌊t / 60⌋ := by
    rw [h60, show t - 60 * (⌊t / 60⌋ : ℚ) = t - ((60 * ⌊t / 60⌋ : ℤ) : ℚ) by push_cast; ring,
      Int.floor_sub_int]
  have hfv : ⌊jsRem t 1 * 100⌋ = ⌊100 * t⌋ - 100 * ⌊t⌋ := by
    rw [h1r, show (t - (⌊t⌋ : ℚ)) * 100 = 100 * t - ((100 * ⌊t⌋ : ℤ) : ℚ) by push_cast; ring,
      Int.floor_sub_int]
  set M := ⌊t / 60⌋.toNat with hMdef
  set S := ⌊jsRem t 60⌋.toNat with hSdef
  set F := ⌊jsRem t 1 * 100⌋.toNat with hFdef
  have hMlt : M < 100 := by omega
  have hSlt : S < 60 := by omega
  have hFlt : F < 100 := by omega
  have dM1 := digitChar_facts (M / 10) (by omega)
  have dM2 := digitChar_facts (M % 10) (by omega)
  have dS1 := digitChar_facts (S / 10) (by omega)
  have dS2 := digitChar_facts (S % 10) (by omega)
  have dF1 := digitChar_facts (F / 10) (by omega)
  have dF2 := digitChar_facts (F % 10) (by omega)
  constructor
  · rw [formatTime, fmt2_eq_digits hm0 hm1, fmt2_eq_digits hs0 (by omega),
      fmt2_eq_digits hf0 hf1]
    simp only [← hMdef, ← hSdef, ← hFdef, List.cons_append, List.nil_append]
    rw [matchLine]
    simp only [dM1.1, dM2.1, dS1.1, dS2.1, dF1.1, dF2.1, Bool.and_self, if_true]
    rw [show matchFracTail (']' :: ' ' :: text) = some (none, ' ' :: text) from rfl]
    simp only [dM1.2.1, dM2.2.1, dS1.2.1, dS2.2.1, dF1.2.1, dF2.2.1]
    rw [dotStar_of_no_lineTerm (by
      intro c hc
      rcases List.mem_cons.1 hc with rfl | hc
      · decide
      · exact htext c hc)]
    have eM : 10 * (M / 10) + M % 10 = M := by omega
    have eS : 10 * (S / 10) + S % 10 = S := by omega
    have eF : 10 * (F / 10) + F % 10 = F := by omega
    rw [eM, eS, eF]
  · rw [lrcTimestamp, if_neg (by norm_num)]
    have eM : (M : ℚ) = (⌊t / 60⌋ : ℚ) := by
      rw [hMdef]
      exact_mod_cast congrArg (fun z : ℤ => (z : ℚ)) (Int.toNat_of_nonneg hm0)
    have eS : (S : ℚ) = ((⌊t⌋ : ℚ) - 60 * ⌊t / 60⌋) := by
      have h' : (S : ℤ) = ⌊t⌋ - 60 * ⌊t / 60⌋ := by
        rw [hSdef, Int.toNat_of_nonneg hs0, hsv]
      calc (S : ℚ) = ((S : ℤ) : ℚ) := by push_cast; ring
        _ = _ := by rw [h']; push_cast; ring
    have eF : (F : ℚ) = ((⌊100 * t⌋ : ℚ) - 100 * ⌊t⌋) := by
      have h' : (F : ℤ) = ⌊100 * t⌋ - 100 * ⌊t⌋ := by
        rw [hFdef, Int.toNat_of_nonneg hf0, hfv]
      calc (F : ℚ) = ((F : ℤ) : ℚ) := by push_cast; ring
        _ = _ := by rw [h']; push_cast; ring
    rw [eM, eS, eF]
    ring

theorem nl_not_mem_natDigits : ∀ fuel n, '\n' ∉ natDigits fuel n := by
  intro fuel
  induction fuel with
  | zero => intro n h; cases h
  | succ fuel ih =>
    intro n h
    rw [natDigits] at h
    by_cases hn : n < 10
    · rw [if_pos hn] at h
      rcases List.mem_singleton.1 h with h
      exact (digitChar_facts n hn).2.2.2 h.symm
    · rw [if_neg hn] at h
      rcases List.mem_append.1 h with h | h
      · exact ih _ h
      · rcases List.mem_singleton.1 h with h
        exact (digitChar_facts (n % 10) (by omega)).2.2.2 h.symm

theorem nl_not_mem_fmt2 (n : ℤ) : '\n' ∉ fmt2 n := by
  intro h
  rw [fmt2] at h
  have hj : '\n' ∉ jsNumToChars n := by
    intro h'
    rw [jsNumToChars] at h'
    by_cases hn : n < 0
    · rw [if_pos hn] at h'
      rcases List.mem_cons.1 h' with h' | h'
      · cases h'
      · exact nl_not_mem_natDigits _ _ h'
    · rw [if_neg hn] at h'
      exact nl_not_mem_natDigits _ _ h'
  by_cases hn : n < 10
  · rw [if_pos hn] at h
    rcases List.mem_cons.1 h with h | h
    · cases h
    · exact hj h
  · rw [if_neg hn] at h
    exact hj h

theorem nl_not_mem_formatTime (t : ℚ) : '\n' ∉ formatTime t := by
  intro h
  rw [formatTime] at h
  rcases List.mem_cons.1 h with h | h
  · exact absurd h (by decide)
  rcases List.mem_append.1 h with h | h
  · rcases List.mem_append.1 h with h | h
    · rcases List.mem_append.1 h with h | h
      · exact nl_not_mem_fmt2 _ h
      · rcases List.mem_cons.1 h with h | h
        · exact absurd h (by decide)
        · exact nl_not_mem_fmt2 _ h
    · rcases List.mem_cons.1 h with h | h
      · exact absurd h (by decide)
      · exact nl_not_mem_fmt2 _ h
  · exact absurd (List.mem_singleton.1 h) (by decide)

theorem parseLRC_exportLRC_eq (now : Nat) (s : List LyricLine)
    (hsort : TsSorted s)
    (hts : ∀ l ∈ s, 0 ≤ l.timestamp ∧ l.timestamp < 6000)
    (htext : ∀ l ∈ s, (∀ c ∈ l.text.toList, isLineTerm c = false) ∧
      jsTrim l.text.toList = l.text.toList)
    (hne : s ≠ []) :
    parseLRC now (exportLRC s) =
      (withIndex 0 s).map fun p =>
        { id := mkLineId p.1 now, timestamp := (⌊100 * p.2.timestamp⌋ : ℚ) / 100,
          text := p.2.text } := by
  have hnl : ∀ line ∈ s.map fun l => formatTime l.timestamp ++ ' ' :: l.text.toList,
      '\n' ∉ line := by
    intro line hline
    obtain ⟨l, hl, rfl⟩ := List.mem_map.1 hline
    intro hmem
    rcases List.mem_append.1 hmem with h | h
    · exact nl_not_mem_formatTime _ h
    · rcases List.mem_cons.1 h with h | h
      · exact absurd h (by decide)
      · have := (htext l hl).1 '\n' h
        exact absurd this (by decide)
  have hsplit : splitChar '\n' (exportLRC s).toList =
      s.map fun l => formatTime l.timestamp ++ ' ' :: l.text.toList := by
    have : (exportLRC s).toList =
        joinNl (s.map fun l => formatTime l.timestamp ++ ' ' :: l.text.toList) := rfl
    rw [this, splitChar_joinNl (by simpa using hne) hnl]
  rw [parseLRC, hsplit, withIndex_map, List.filterMap_map]
  have hforall : ∀ p ∈ withIndex 0 s,
      ((fun q : Nat × List Char =>
          (matchLine q.2).map fun m =>
            ({ id := mkLineId q.1 now,
               timestamp := lrcTimestamp m.minutes m.seconds m.frac m.fracLen,
               text := String.mk (jsTrim m.rest) } : LyricLine)) ∘
        fun p : Nat × LyricLine => (p.1, formatTime p.2.timestamp ++ ' ' :: p.2.text.toList)) p =
      some ({ id := mkLineId p.1 now, timestamp := (⌊100 * p.2.timestamp⌋ : ℚ) / 100,
              text := p.2.text } : LyricLine) := by
    intro p hp
    have hmem := mem_withIndex hp
    obtain ⟨ht0, ht1⟩ := hts p.2 hmem
    obtain ⟨htc, htr⟩ := htext p.2 hmem
    have hm := matchLine_formatTime p.2.timestamp ht0 ht1 p.2.text.toList htc
    show (matchLine (formatTime p.2.timestamp ++ ' ' :: p.2.text.toList)).map _ = _
    rw [hm.1, Option.map_some']
    congr 1
    rw [hm.2]
    show ({ id := mkLineId p.1 now, timestamp := (⌊100 * p.2.timestamp⌋ : ℚ) / 100,
            text := String.mk (jsTrim (' ' :: p.2.text.toList)) } : LyricLine) = _
    rw [jsTrim_space_cons htr]
    rfl
  rw [filterMap_eq_map_of_forall_some hforall]
  apply sortByTimestamp_of_sorted
  unfold TsSorted at hsort ⊢
  rw [List.pairwise_map]
  refine (pairwise_withIndex 0 hsort).imp ?_
  intro a b hab
  show (⌊100 * a.2.timestamp⌋ : ℚ) / 100 ≤ (⌊100 * b.2.timestamp⌋ : ℚ) / 100
  have h1 : ⌊100 * a.2.timestamp⌋ ≤ ⌊100 * b.2.timestamp⌋ :=
    Int.floor_le_floor (by linarith)
  have h2 : ((⌊100 * a.2.timestamp⌋ : ℤ) : ℚ) ≤ ((⌊100 * b.2.timestamp⌋ : ℤ) : ℚ) := by
    exact_mod_cast h1
  linarith

/-- C1 counterexample: the round-trip law fails as stated. For the valid
one-line sequence with non-negative timestamp 6000 (100 minutes), `formatTime`
emits a three-digit minutes field `[100:00.00]`, which the parse pattern
(exactly two minute digits) rejects, so the re-parsed sequence has 0 lines
instead of 1. -/
theorem C1_roundtrip_counterexample :
    (parseLRC 0 (exportLRC [⟨"a", 6000, "x"⟩])).length ≠
      [(⟨"a", 6000, "x"⟩ : LyricLine)].length := by
  have e1 : (⌊(6000 : ℚ) / 60⌋ : ℤ) = 100 := by norm_num
  have e2 : ⌊jsRem (6000 : ℚ) 60⌋ = (0 : ℤ) := by
    rw [jsRem_sixty 6000 (by norm_num), e1]
    norm_num
  have e3 : ⌊jsRem (6000 : ℚ) 1 * 100⌋ = (0 : ℤ) := by
    rw [jsRem_one 6000 (by norm_num)]
    norm_num
  have hfmt : formatTime 6000 = "[100:00.00]".toList := by
    rw [formatTime, e1, e2, e3]
    rfl
  have hexp : exportLRC [⟨"a", 6000, "x"⟩] = "[100:00.00] x" := by
    show String.mk (joinNl [formatTime 6000 ++ ' ' :: "x".toList]) = _
    rw [hfmt]
    rfl
  rw [hexp]
  decide

/-- C1 (amended): the round-trip law holds for sorted sequences whose
timestamps lie in `[0, 6000)` (so the minutes field stays two digits) and
whose texts contain no line terminators and no leading or trailing whitespace:
re-parsing the export yields the same number of lines, each timestamp equal to
within 0.01 s (the export floors to hundredths), and each text identical; only
the generated ids differ. -/
theorem C1_roundtrip (now : Nat) (s : List LyricLine)
    (hsort : TsSorted s)
    (hts : ∀ l ∈ s, 0 ≤ l.timestamp ∧ l.timestamp < 6000)
    (htext : ∀ l ∈ s, (∀ c ∈ l.text.toList, isLineTerm c = false) ∧
      jsTrim l.text.toList = l.text.toList) :
    (parseLRC now (exportLRC s)).length = s.length ∧
    ∀ i (hi : i < (parseLRC now (exportLRC s)).length) (hi' : i < s.length),
      |(parseLRC now (exportLRC s))[i].timestamp - s[i].timestamp| ≤ 1 / 100 ∧
      (parseLRC now (exportLRC s))[i].text = s[i].text := by
  by_cases hne : s = []
  · subst hne
    refine ⟨rfl, ?_⟩
    intro i hi hi'
    exact absurd hi' (by simp)
  · rw [parseLRC_exportLRC_eq now s hsort hts htext hne]
    refine ⟨by rw [List.length_map, length_withIndex], ?_⟩
    intro i hi hi'
    have hlen : i < (withIndex 0 s).length := by
      rw [length_withIndex]
      exact hi'
    rw [List.getElem_map, getElem_withIndex 0 s i hlen hi']
    refine ⟨?_, rfl⟩
    show |(⌊100 * s[i].timestamp⌋ : ℚ) / 100 - s[i].timestamp| ≤ 1 / 100
    have hl : (⌊100 * s[i].timestamp⌋ : ℚ) ≤ 100 * s[i].timestamp := Int.floor_le _
    have hu : 100 * s[i].timestamp < ⌊100 * s[i].timestamp⌋ + 1 :=
      Int.lt_floor_add_one _
    rw [abs_le]
    constructor
    · linarith
    · linarith

/-- C1 witness: the amended round-trip theorem applied to the concrete
sequence `[{id := a, timestamp := 3/2, text := Hello}]`. -/
theorem C1_roundtrip_witness :
    (parseLRC 0 (exportLRC [⟨"a", (3 : ℚ) / 2, "Hello"⟩])).length =
      [(⟨"a", (3 : ℚ) / 2, "Hello"⟩ : LyricLine)].length ∧
    ∀ i (hi : i < (parseLRC 0 (exportLRC [⟨"a", (3 : ℚ) / 2, "Hello"⟩])).length)
      (hi' : i < [(⟨"a", (3 : ℚ) / 2, "Hello"⟩ : LyricLine)].length),
      |(parseLRC 0 (exportLRC [⟨"a", (3 : ℚ) / 2, "Hello"⟩]))[i].timestamp -
        [(⟨"a", (3 : ℚ) / 2, "Hello"⟩ : LyricLine)][i].timestamp| ≤ 1 / 100 ∧
      (parseLRC 0 (exportLRC [⟨"a", (3 : ℚ) / 2, "Hello"⟩]))[i].text =
        [(⟨"a", (3 : ℚ) / 2, "Hello"⟩ : LyricLine)][i].text :=
  C1_roundtrip 0 [⟨"a", (3 : ℚ) / 2, "Hello"⟩]
    (by unfold TsSorted; exact List.pairwise_singleton _ _)
    (by
      intro l hl
      rw [List.mem_singleton] at hl
      subst hl
      norm_num)
    (by
      intro l hl
      rw [List.mem_singleton] at hl
      subst hl
      exact ⟨by decide, by decide⟩)

/-- C2 counterexample: the sortedness invariant is not re-established by every
mutation. The Enter-key insert-after splices in a line at
`lyrics[index].timestamp + 2` without re-sorting: starting from the sorted
sequence `[a@0, b@1]`, pressing Enter on line 0 produces `[a@0, new@2, b@1]`,
which is not non-decreasing by timestamp. -/
theorem C2_sortedness_counterexample :
    ¬ TsSorted ((handleEnterInsert [⟨"a", 0, "x"⟩, ⟨"b", 1, "y"⟩] 0 7).getD []) := by
  have h : (handleEnterInsert [⟨"a", 0, "x"⟩, ⟨"b", 1, "y"⟩] 0 7).getD [] =
      [⟨"a", 0, "x"⟩, ⟨"line-" ++ toString 7, 0 + 2, ""⟩, ⟨"b", 1, "y"⟩] := rfl
  rw [h]
  unfold TsSorted
  intro hp
  rw [List.pairwise_cons] at hp
  rw [List.pairwise_cons] at hp
  have := hp.2.1 ⟨"b", 1, "y"⟩ (List.mem_cons_self _ _)
  norm_num at this

/-- C2 (amended): the mutations that re-sort or preserve order do keep the
sequence non-decreasing by timestamp — a manual timestamp edit that results in
an update re-sorts, Add Line appends then re-sorts, and delete preserves an
already-sorted sequence. The tap-sync timestamp overwrite, the Enter-key
insert-after, and the suggestion insert do not re-sort and can leave the
sequence out of order (see the counterexample). -/
theorem C2_sortedness_amended :
    (∀ (lyrics : List LyricLine) (id timeStr : String) (L : List LyricLine),
      TsSorted lyrics → handleTimeChange lyrics id timeStr = some L → TsSorted L) ∧
    (∀ (lyrics : List LyricLine) (t : ℚ) (now : Nat), TsSorted (handleAddLine lyrics t now)) ∧
    (∀ (lyrics : List LyricLine) (id : String),
      TsSorted lyrics → TsSorted (handleDelete lyrics id)) := by
  refine ⟨?_, ?_, ?_⟩
  · intro lyrics id timeStr L hs h
    unfold handleTimeChange at h
    split at h
    · split at h
      · injection h with h
        subst h
        exact sortByTimestamp_pairwise _
      · injection h with h
        subst h
        exact hs
      · injection h with h
        subst h
        exact hs
      · cases h
    · injection h with h
      subst h
      exact hs
  · intro lyrics t now
    exact sortByTimestamp_pairwise _
  · intro lyrics id hs
    exact List.Pairwise.filter _ hs

/-- C2 witness: the amended sortedness theorem applied to concrete inputs —
Add Line on the empty store at time 5 and delete of the only line. -/
theorem C2_sortedness_witness :
    TsSorted (handleAddLine [] 5 7) ∧ TsSorted (handleDelete [⟨"a", 0, "x"⟩] ("a")) :=
  ⟨C2_sortedness_amended.2.1 [] 5 7,
   C2_sortedness_amended.2.2 [⟨"a", 0, "x"⟩] ("a")
     (by unfold TsSorted; exact List.pairwise_singleton _ _)⟩

theorem lyricsAfterResponse_spec (snapshot currentLyrics : List LyricLine) (index : Nat)
    (newId suggestion : String) (h : index < snapshot.length) :
    (suggestion = "" →
      lyricsAfterResponse snapshot currentLyrics index newId suggestion = some currentLyrics) ∧
    (suggestion ≠ "" →
      lyricsAfterResponse snapshot currentLyrics index newId suggestion =
        some (snapshot.insertIdx (index + 1)
          ⟨newId, (snapshot.get ⟨index, h⟩).timestamp + 3, suggestion⟩)) := by
  by_cases hs : suggestion = ""
  · refine ⟨fun _ => ?_, fun hne => absurd hs hne⟩
    rw [lyricsAfterResponse, if_pos hs]
  · refine ⟨fun heq => absurd heq hs, fun _ => ?_⟩
    rw [lyricsAfterResponse, if_neg hs, List.get?_eq_get h]

/-- C3 counterexample: the completion handler does not use index i's
then-current timestamp. A request issued at index 0 when the sequence was
`[a@0]`; by the time the response `next` arrives the sequence has become
`[a@10]`; the handler inserts at the snapshot timestamp `0 + 3 = 3`, not at
the then-current base `10 + 3 = 13`. -/
theorem C3_staleness_counterexample :
    lyricsAfterResponse [⟨"a", 0, "x"⟩] [⟨"a", 10, "x"⟩] 0 "n" "next" =
      some [⟨"a", 0, "x"⟩, ⟨"n", 0 + 3, "next"⟩] ∧ (0 + 3 : ℚ) ≠ 10 + 3 := by
  refine ⟨rfl, by norm_num⟩

/-- C3 (amended): the completion handler tolerates arbitrary interleaved
edits and runs to completion without failure, because it operates entirely on
the request-time snapshot: whenever the requested index was valid at request
time, a non-empty suggestion is spliced into the snapshot after the index with
the snapshot's (not the then-current) timestamp plus 3 as base, replacing the
edited sequence wholesale; an empty suggestion leaves the then-current
sequence in place. -/
theorem C3_snapshot_insertion (snapshot currentLyrics : List LyricLine) (index : Nat)
    (newId suggestion : String) (h : index < snapshot.length) :
    (lyricsAfterResponse snapshot currentLyrics index newId suggestion).isSome ∧
    (suggestion = "" →
      lyricsAfterResponse snapshot currentLyrics index newId suggestion = some currentLyrics) ∧
    (suggestion ≠ "" →
      lyricsAfterResponse snapshot currentLyrics index newId suggestion =
        some (snapshot.insertIdx (index + 1)
          ⟨newId, (snapshot.get ⟨index, h⟩).timestamp + 3, suggestion⟩)) := by
  have hsp := lyricsAfterResponse_spec snapshot currentLyrics index newId suggestion h
  refine ⟨?_, hsp.1, hsp.2⟩
  by_cases hs : suggestion = ""
  · rw [hsp.1 hs]
    rfl
  · rw [hsp.2 hs]
    rfl

/-- C3 witness: the amended theorem applied to a concrete snapshot of one
line, a concurrently edited current sequence, index 0, and suggestion `s`. -/
theorem C3_snapshot_insertion_witness :
    (lyricsAfterResponse [⟨"a", 0, "x"⟩] [] 0 "n" "s").isSome ∧
    (("s" : String) = "" → lyricsAfterResponse [⟨"a", 0, "x"⟩] [] 0 "n" "s" = some []) ∧
    (("s" : String) ≠ "" →
      lyricsAfterResponse [⟨"a", 0, "x"⟩] [] 0 "n" "s" =
        some (List.insertIdx (0 + 1)
          (⟨"n", (List.get [(⟨"a", 0, "x"⟩ : LyricLine)] ⟨0, by decide⟩).timestamp + 3, "s"⟩ :
            LyricLine)
          [⟨"a", 0, "x"⟩])) :=
  C3_snapshot_insertion [⟨"a", 0, "x"⟩] [] 0 "n" "s" (by decide)

/-- C4: correctness of the active-line computation. On the empty sequence it
returns none; when every line's timestamp exceeds `currentTime + 0.2` it
returns none; in general it returns the id of the last line whose timestamp is
at most `currentTime + 0.2`; and on timestamps `[0, 1.5, 3]` the times `1.6`
and `3.3` resolve to the lines at `1.5` and `3` respectively. -/
theorem C4_computeActiveLine (lyrics : List LyricLine) (t : ℚ)
    (hsort : TsSorted lyrics) (ht : 0 ≤ t) :
    computeActiveLine [] t = none ∧
    ((∀ l ∈ lyrics, t + 0.2 < l.timestamp) → computeActiveLine lyrics t = none) ∧
    computeActiveLine lyrics t =
      ((lyrics.filter fun l => l.timestamp ≤ t + 0.2).getLast?).map (·.id) ∧
    computeActiveLine [⟨"l1", 0, "a"⟩, ⟨"l2", 1.5, "b"⟩, ⟨"l3", 3, "c"⟩] 1.6 = some ("l2") ∧
    computeActiveLine [⟨"l1", 0, "a"⟩, ⟨"l2", 1.5, "b"⟩, ⟨"l3", 3, "c"⟩] 3.3 = some ("l3") := by
  refine ⟨rfl, ?_, ?_, ?_, ?_⟩
  · intro h
    rw [computeActiveLine, Option.map_eq_none']
    rw [List.find?_eq_none]
    intro x hx
    simp only [decide_eq_true_eq]
    exact not_le.2 (h x (List.mem_reverse.1 hx))
  · rw [computeActiveLine, reverse_find?_eq_getLast?_filter]
  · rw [computeActiveLine,
      show ([⟨"l1", 0, "a"⟩, ⟨"l2", 1.5, "b"⟩, ⟨"l3", 3, "c"⟩] : List LyricLine).reverse =
        [⟨"l3", 3, "c"⟩, ⟨"l2", 1.5, "b"⟩, ⟨"l1", 0, "a"⟩] from rfl,
      List.find?_cons_of_neg _ (by simp only [decide_eq_true_eq]; norm_num),
      List.find?_cons_of_pos _ (by simp only [decide_eq_true_eq]; norm_num)]
    rfl
  · rw [computeActiveLine,
      show ([⟨"l1", 0, "a"⟩, ⟨"l2", 1.5, "b"⟩, ⟨"l3", 3, "c"⟩] : List LyricLine).reverse =
        [⟨"l3", 3, "c"⟩, ⟨"l2", 1.5, "b"⟩, ⟨"l1", 0, "a"⟩] from rfl,
      List.find?_cons_of_pos _ (by simp only [decide_eq_true_eq]; norm_num)]
    rfl

/-- C4 witness: the theorem applied at the empty sequence and time 0, reading
off the empty-sequence clause. -/
theorem C4_computeActiveLine_witness : computeActiveLine [] 0 = none :=
  (C4_computeActiveLine [] 0 (by unfold TsSorted; exact List.Pairwise.nil) (by norm_num)).1

/-- C10: the active-line id, once set, is never cleared by a playback time
update. When no line qualifies at the current time the previous id is
retained; a non-none id can never become none; and every update either keeps
the previous id or moves to the id of some line of the sequence. -/
theorem C10_active_retention (lyrics : List LyricLine) (prev : Option String) (t : ℚ) :
    (computeActiveLine lyrics t = none → nextActiveLineId lyrics prev t = prev) ∧
    (prev ≠ none → nextActiveLineId lyrics prev t ≠ none) ∧
    (nextActiveLineId lyrics prev t = prev ∨
      ∃ l ∈ lyrics, nextActiveLineId lyrics prev t = some l.id) := by
  cases hc : computeActiveLine lyrics t with
  | none =>
    have h1 : nextActiveLineId lyrics prev t = prev := by
      unfold nextActiveLineId
      rw [hc]
    exact ⟨fun _ => h1, fun hp => by rw [h1]; exact hp, Or.inl h1⟩
  | some i =>
    have h1 : nextActiveLineId lyrics prev t = some i := by
      unfold nextActiveLineId
      rw [hc]
    have hc' := hc
    rw [computeActiveLine] at hc'
    obtain ⟨l, hfind, hid⟩ := Option.map_eq_some'.1 hc'
    have hmem : l ∈ lyrics := List.mem_reverse.1 (List.mem_of_find?_eq_some hfind)
    refine ⟨fun h => ?_, fun _ => ?_, Or.inr ⟨l, hmem, ?_⟩⟩
    · cases h
    · rw [h1]
      simp
    · rw [h1, ← hid]

/-- C10 witness: the theorem applied with an empty sequence, a previously
active id `x`, and time 0 — the id is retained, not cleared. -/
theorem C10_active_retention_witness : nextActiveLineId [] (some ("x")) 0 = some ("x") :=
  (C10_active_retention [] (some ("x")) 0).1 rfl

/-- C5: the tap-sync state machine. Entering tap-sync mode from edit mode sets
the cursor to 0 unconditionally; a tap with cursor < length overwrites the
timestamp of the line at the cursor with the playback port's current time,
makes that line immediately active, and increments the cursor by exactly one;
a tap with cursor = length leaves the sequence and the cursor unchanged and
surfaces the end-of-lines notice. -/
theorem C5_tap_sync (s : AppState) (t : ℚ) :
    (s.mode = AppMode.EDIT →
      (toggleMode s).syncIndex = 0 ∧ (toggleMode s).mode = AppMode.TAP_SYNC) ∧
    (s.mode = AppMode.TAP_SYNC → ∀ h : s.syncIndex < s.lyrics.length,
      (handleTapSync s t).lyrics =
        s.lyrics.set s.syncIndex { s.lyrics.get ⟨s.syncIndex, h⟩ with timestamp := t } ∧
      (handleTapSync s t).activeLineId = some (s.lyrics.get ⟨s.syncIndex, h⟩).id ∧
      (handleTapSync s t).syncIndex = s.syncIndex + 1) ∧
    (s.mode = AppMode.TAP_SYNC → s.syncIndex = s.lyrics.length →
      (handleTapSync s t).lyrics = s.lyrics ∧
      (handleTapSync s t).syncIndex = s.syncIndex ∧
      (handleTapSync s t).notification = some ("End of lines reached")) := by
  refine ⟨fun h => ?_, fun h hlt => ?_, fun h hlen => ?_⟩
  · rw [toggleMode, if_pos h]
    exact ⟨rfl, rfl⟩
  · rw [handleTapSync, if_neg (by rw [h]; simp), dif_pos hlt]
    exact ⟨rfl, rfl, rfl⟩
  · rw [handleTapSync, if_neg (by rw [h]; simp), dif_neg (by omega)]
    exact ⟨rfl, rfl, rfl⟩

/-- C5 witness: the theorem applied to a concrete tap-sync state with one
line and cursor 0, and to a concrete edit-mode state for the mode toggle. -/
theorem C5_tap_sync_witness :
    (handleTapSync ⟨[⟨"a", 0, "x"⟩], AppMode.TAP_SYNC, 0, none, none⟩ 5).syncIndex = 0 + 1 ∧
    (toggleMode ⟨[], AppMode.EDIT, 3, none, none⟩).syncIndex = 0 :=
  ⟨((C5_tap_sync ⟨[⟨"a", 0, "x"⟩], AppMode.TAP_SYNC, 0, none, none⟩ 5).2.1 rfl
      (by decide)).2.2,
   ((C5_tap_sync ⟨[], AppMode.EDIT, 3, none, none⟩ 0).1 rfl).1⟩

theorem matchFracTail_some_none {rest r : List Char}
    (h : matchFracTail rest = some (none, r)) : rest = ']' :: r := by
  cases rest with
  | nil => cases h
  | cons d r' =>
    cases r' with
    | nil =>
      rw [matchFracTail] at h
      by_cases hd : d = ']'
      · rw [if_pos hd] at h
        injection h with h
        injection h with h1 h2
        rw [hd, ← h2]
      · rw [if_neg hd] at h
        cases h
    | cons e r'' =>
      rw [matchFracTail] at h
      by_cases hd : d = ']'
      · rw [if_pos hd] at h
        injection h with h
        injection h with h1 h2
        rw [hd, h2]
      · rw [if_neg hd] at h
        by_cases he : e = ']'
        · rw [if_pos he] at h
          split at h
          · injection h with h
            injection h with h1 h2
            cases h1
          · cases h
        · rw [if_neg he] at h
          cases h

theorem matchFracTail_some_some {rest r : List Char} {d : Char}
    (h : matchFracTail rest = some (some d, r)) :
    rest = d :: ']' :: r ∧ isAsciiDigit d = true := by
  cases rest with
  | nil => cases h
  | cons e r' =>
    cases r' with
    | nil =>
      rw [matchFracTail] at h
      by_cases he : e = ']'
      · rw [if_pos he] at h
        injection h with h
        injection h with h1 h2
        cases h1
      · rw [if_neg he] at h
        cases h
    | cons f r'' =>
      rw [matchFracTail] at h
      by_cases he : e = ']'
      · rw [if_pos he] at h
        injection h with h
        injection h with h1 h2
        cases h1
      · rw [if_neg he] at h
        by_cases hf : f = ']'
        · rw [if_pos hf] at h
          split at h
          · injection h with h
            injection h with h1 h2
            injection h1 with h1
            subst h1 h2
            rename_i hdig
            rw [hf]
            exact ⟨rfl, hdig⟩
          · cases h
        · rw [if_neg hf] at h
          cases h

theorem matchFracTail_bracket (text : List Char) :
    matchFracTail (']' :: text) = some (none, text) := by
  cases text with
  | nil => rfl
  | cons e r => rw [matchFracTail, if_pos rfl]

theorem matchLine_isSome_iff (line : List Char) :
    (matchLine line).isSome = true ↔ SpecLineShape line := by
  constructor
  · intro h
    obtain ⟨m, hm⟩ := Option.isSome_iff_exists.1 h
    rw [matchLine.eq_def] at hm
    split at hm
    · rename_i m1 m2 s1 s2 f1 f2 rest
      split at hm
      · rename_i hguard
        simp only [Bool.and_eq_true] at hguard
        obtain ⟨⟨⟨⟨⟨hm1, hm2⟩, hs1⟩, hs2⟩, hf1⟩, hf2⟩ := hguard
        split at hm
        · rename_i r heq
          have hrest := matchFracTail_some_none heq
          refine ⟨m1, m2, s1, s2, [f1, f2], r, Or.inl rfl, hm1, hm2, hs1, hs2, ?_, ?_⟩
          · intro c hc
            rcases List.mem_cons.1 hc with rfl | hc
            · exact hf1
            · rw [List.mem_singleton.1 hc]
              exact hf2
          · rw [hrest]
            rfl
        · rename_i d3 r heq
          obtain ⟨hrest, hd3⟩ := matchFracTail_some_some heq
          refine ⟨m1, m2, s1, s2, [f1, f2, d3], r, Or.inr rfl, hm1, hm2, hs1, hs2, ?_, ?_⟩
          · intro c hc
            rcases List.mem_cons.1 hc with rfl | hc
            · exact hf1
            rcases List.mem_cons.1 hc with rfl | hc
            · exact hf2
            · rw [List.mem_singleton.1 hc]
              exact hd3
          · rw [hrest]
            rfl
        · cases hm
      · cases hm
    · cases hm
  · rintro ⟨m1, m2, s1, s2, fds, text, hlen, h1, h2, h3, h4, hfds, rfl⟩
    rcases hlen with h2len | h3len
    · obtain ⟨a, b, rfl⟩ := List.length_eq_two.1 h2len
      have ha := hfds a (by simp)
      have hb := hfds b (by simp)
      rw [show ('[' :: m1 :: m2 :: ':' :: s1 :: s2 :: '.' :: [a, b] ++ ']' :: text) =
        '[' :: m1 :: m2 :: ':' :: s1 :: s2 :: '.' :: a :: b :: (']' :: text) from rfl]
      rw [matchLine, h1, h2, h3, h4, ha, hb]
      simp only [Bool.and_self, if_true]
      rw [matchFracTail_bracket]
      rfl
    · obtain ⟨a, b, c, rfl⟩ := List.length_eq_three.1 h3len
      have ha := hfds a (by simp)
      have hb := hfds b (by simp)
      have hc := hfds c (by simp)
      have hcne : c ≠ ']' := by
        intro hcc
        rw [hcc] at hc
        exact absurd hc (by decide)
      rw [show ('[' :: m1 :: m2 :: ':' :: s1 :: s2 :: '.' :: [a, b, c] ++ ']' :: text) =
        '[' :: m1 :: m2 :: ':' :: s1 :: s2 :: '.' :: a :: b :: (c :: ']' :: text) from rfl]
      rw [matchLine, h1, h2, h3, h4, ha, hb]
      simp only [Bool.and_self, if_true]
      rw [matchFracTail, if_neg hcne, if_pos rfl, if_pos hc]
      rfl

/-- C6: parse correctness. `parseLRC` always returns a sequence sorted by
timestamp; a line yields a record exactly when it has the bracketed two-digit
minutes, two-digit seconds, two-or-three-digit fraction shape; a single
matching line becomes one record with timestamp
`minutes*60 + seconds + frac/scale` and trimmed text while a non-matching
line is skipped; the four-line example parses to exactly three lines ordered
`Start@0`, `Hello@1.5`, `World@3`. -/
theorem C6_parse_correctness :
    (∀ (now : Nat) (content : String), TsSorted (parseLRC now content)) ∧
    (∀ line : List Char, (matchLine line).isSome = true ↔ SpecLineShape line) ∧
    (∀ (now : Nat) (line : List Char), '\n' ∉ line →
      parseLRC now (String.mk line) =
        match matchLine line with
        | none => []
        | some m => [⟨mkLineId 0 now, lrcTimestamp m.minutes m.seconds m.frac m.fracLen,
            String.mk (jsTrim m.rest)⟩]) ∧
    parseLRC 0 ("[00:01.50]Hello\n[00:03.00]World\n[bad line]\n[00:00.00]Start") =
      [⟨mkLineId 3 0, 0, "Start"⟩, ⟨mkLineId 0 0, 1.5, "Hello"⟩, ⟨mkLineId 1 0, 3, "World"⟩] := by
  refine ⟨?_, matchLine_isSome_iff, ?_, ?_⟩
  · intro now content
    exact sortByTimestamp_pairwise _
  · intro now line hnl
    unfold parseLRC
    rw [show (String.mk line).toList = line from rfl, splitChar_no_sep hnl,
      show withIndex 0 [line] = [(0, line)] from rfl]
    cases hm : matchLine line with
    | none =>
      simp only [List.filterMap_cons, List.filterMap_nil, hm, Option.map_none']
      rfl
    | some m =>
      simp only [List.filterMap_cons, List.filterMap_nil, hm, Option.map_some']
      rfl
  · have hstep : parseLRC 0 ("[00:01.50]Hello\n[00:03.00]World\n[bad line]\n[00:00.00]Start") =
        sortByTimestamp
          [⟨mkLineId 0 0, lrcTimestamp 0 1 50 2, "Hello"⟩,
           ⟨mkLineId 1 0, lrcTimestamp 0 3 0 2, "World"⟩,
           ⟨mkLineId 3 0, lrcTimestamp 0 0 0 2, "Start"⟩] := rfl
    rw [hstep,
      show lrcTimestamp 0 1 50 2 = (1.5 : ℚ) by rw [lrcTimestamp]; norm_num,
      show lrcTimestamp 0 3 0 2 = (3 : ℚ) by rw [lrcTimestamp]; norm_num,
      show lrcTimestamp 0 0 0 2 = (0 : ℚ) by rw [lrcTimestamp]; norm_num]
    norm_num [sortByTimestamp, insertSorted]

/-- C6 witness: the single-line clause of the theorem applied to a concrete
non-matching line, which is skipped. -/
theorem C6_parse_correctness_witness : parseLRC 0 (String.mk ['h', 'i']) = [] := by
  have h := C6_parse_correctness.2.2.1 0 ['h', 'i'] (by decide)
  rw [show matchLine ['h', 'i'] = none from rfl] at h
  exact h

theorem handleTimeChange_eval (lyrics : List LyricLine) (id s : String) {p0 p1 : List Char}
    (hsp : splitChar ':' s.toList = [p0, p1]) :
    handleTimeChange lyrics id s =
      match parseFloat (String.mk p0), parseFloat (String.mk p1) with
      | JsFloat.fin min, JsFloat.fin sec =>
        some (sortByTimestamp (lyrics.map fun l =>
          if l.id = id then { l with timestamp := min * 60 + sec } else l))
      | JsFloat.nan, _ => some lyrics
      | _, JsFloat.nan => some lyrics
      | _, _ => none := by
  unfold handleTimeChange
  rw [hsp]

/-- C7 counterexample: negative input does result in a timestamp update. The
edit string `-1:30` splits into two parts that both parse as numbers
(`-1` and `30`), so the code updates the line's timestamp to
`-1 * 60 + 30 = -30`, a negative time — the operation is not a no-op. -/
theorem C7_negative_update_counterexample :
    handleTimeChange [⟨"a", 5, "x"⟩] ("a") ("-1:30") = some [⟨"a", -30, "x"⟩] ∧
    some [(⟨"a", -30, "x"⟩ : LyricLine)] ≠ some [⟨"a", 5, "x"⟩] := by
  have hsplit : splitChar ':' ("-1:30").toList = [['-', '1'], ['3', '0']] := by decide
  have hp0 : parseFloat (String.mk ['-', '1']) = JsFloat.fin (-1) := by
    have e : parseFloat (String.mk ['-', '1']) =
        JsFloat.fin (-(((digitsVal ['1'] : ℕ) : ℚ) * (10 : ℚ) ^ expValue ([] : List Char))) :=
      rfl
    rw [e, show digitsVal ['1'] = 1 from by decide,
      show expValue ([] : List Char) = 0 from rfl]
    norm_num
  have hp1 : parseFloat (String.mk ['3', '0']) = JsFloat.fin 30 := by
    have e : parseFloat (String.mk ['3', '0']) =
        JsFloat.fin (((digitsVal ['3', '0'] : ℕ) : ℚ) * (10 : ℚ) ^ expValue ([] : List Char)) :=
      rfl
    rw [e, show digitsVal ['3', '0'] = 30 from by decide,
      show expValue ([] : List Char) = 0 from rfl]
    norm_num
  constructor
  · rw [handleTimeChange_eval [⟨"a", 5, "x"⟩] ("a") ("-1:30") hsplit, hp0, hp1]
    show some (sortByTimestamp [⟨"a", (-1 : ℚ) * 60 + 30, "x"⟩]) = _
    rw [show sortByTimestamp [(⟨"a", (-1 : ℚ) * 60 + 30, "x"⟩ : LyricLine)] =
      [⟨"a", (-1 : ℚ) * 60 + 30, "x"⟩] from rfl]
    norm_num
  · simp only [ne_eq, Option.some.injEq, List.cons.injEq, LyricLine.mk.injEq]
    intro h
    have := h.1.2.1
    norm_num at this

/-- C7 (amended): a malformed timestamp-edit input — one that does not split
into exactly two `:`-separated parts, or whose parts do not both parse as
numbers — leaves the sequence completely unchanged and surfaces no error; but
input denoting a negative time is not rejected: whenever both parts parse as
finite numbers the timestamp is updated to `min * 60 + sec` (and the sequence
re-sorted) even when that value is negative. -/
theorem C7_invalid_time_edit (lyrics : List LyricLine) (id s : String) :
    ((splitChar ':' s.toList).length ≠ 2 → handleTimeChange lyrics id s = some lyrics) ∧
    (∀ p0 p1, splitChar ':' s.toList = [p0, p1] →
      (parseFloat (String.mk p0) = JsFloat.nan ∨ parseFloat (String.mk p1) = JsFloat.nan) →
      handleTimeChange lyrics id s = some lyrics) ∧
    (∀ p0 p1 min sec, splitChar ':' s.toList = [p0, p1] →
      parseFloat (String.mk p0) = JsFloat.fin min →
      parseFloat (String.mk p1) = JsFloat.fin sec →
      handleTimeChange lyrics id s =
        some (sortByTimestamp (lyrics.map fun l =>
          if l.id = id then { l with timestamp := min * 60 + sec } else l))) := by
  refine ⟨?_, ?_, ?_⟩
  · intro h
    unfold handleTimeChange
    rcases hsp : splitChar ':' s.toList with _ | ⟨p0, _ | ⟨p1, _ | ⟨p2, rest⟩⟩⟩
    · rfl
    · rfl
    · exact absurd (by rw [hsp]; rfl) h
    · rfl
  · intro p0 p1 hsp hnan
    rw [handleTimeChange_eval lyrics id s hsp]
    rcases hnan with hnan | hnan
    · rw [hnan]
      cases parseFloat (String.mk p1) <;> rfl
    · rw [hnan]
      cases parseFloat (String.mk p0) <;> rfl
  · intro p0 p1 min sec hsp hm hs
    rw [handleTimeChange_eval lyrics id s hsp, hm, hs]

/-- C7 witness: the amended theorem applied to the malformed input `abc`
(a single part, no colon), which leaves the one-line store unchanged. -/
theorem C7_invalid_time_edit_witness :
    handleTimeChange [⟨"a", 5, "x"⟩] ("a") ("abc") = some [⟨"a", 5, "x"⟩] :=
  (C7_invalid_time_edit [⟨"a", 5, "x"⟩] ("a") ("abc")).1 (by decide)

/-- C8: suggestion-result insertion policy. An empty suggestion string leaves
the sequence unchanged (no line inserted); any non-empty string — including
the fixed placeholders produced on missing API key or service error, which
are provably non-empty — is inserted as a new line immediately after the
requested index with the requested line's timestamp plus 3 seconds. -/
theorem C8_suggestion_insertion (snapshot currentLyrics : List LyricLine) (index : Nat)
    (newId : String) (outcome : SuggestionOutcome) (h : index < snapshot.length) :
    (generateLyricSuggestion outcome = "" →
      lyricsAfterResponse snapshot currentLyrics index newId (generateLyricSuggestion outcome) =
        some currentLyrics) ∧
    (generateLyricSuggestion outcome ≠ "" →
      lyricsAfterResponse snapshot currentLyrics index newId (generateLyricSuggestion outcome) =
        some (snapshot.insertIdx (index + 1)
          ⟨newId, (snapshot.get ⟨index, h⟩).timestamp + 3, generateLyricSuggestion outcome⟩)) ∧
    generateLyricSuggestion SuggestionOutcome.missingKey ≠ "" ∧
    generateLyricSuggestion SuggestionOutcome.serviceError ≠ "" := by
  have hsp := lyricsAfterResponse_spec snapshot currentLyrics index newId
    (generateLyricSuggestion outcome) h
  exact ⟨hsp.1, hsp.2, by decide, by decide⟩

/-- C8 witness: the theorem applied to a one-line snapshot and the
service-error outcome, whose placeholder string is non-empty and therefore
inserted after index 0. -/
theorem C8_suggestion_insertion_witness :
    lyricsAfterResponse [⟨"a", 0, "x"⟩] [⟨"a", 0, "x"⟩] 0 "n"
      (generateLyricSuggestion SuggestionOutcome.serviceError) =
    some (List.insertIdx (0 + 1)
      (⟨"n", (List.get [(⟨"a", 0, "x"⟩ : LyricLine)] ⟨0, by decide⟩).timestamp + 3,
        generateLyricSuggestion SuggestionOutcome.serviceError⟩ : LyricLine)
      [⟨"a", 0, "x"⟩]) :=
  ((C8_suggestion_insertion [⟨"a", 0, "x"⟩] [⟨"a", 0, "x"⟩] 0 "n"
    SuggestionOutcome.serviceError (by decide)).2.1 (by decide))

theorem exists_mem_withIndex {α : Type} {l : List α} {x : α} (i : Nat) (hx : x ∈ l) :
    ∃ p ∈ withIndex i l, p.2 = x := by
  induction l generalizing i with
  | nil => cases hx
  | cons a l ih =>
    rcases List.mem_cons.1 hx with rfl | hx'
    · exact ⟨(i, x), List.mem_cons_self _ _, rfl⟩
    · obtain ⟨p, hp, he⟩ := ih (i + 1) hx'
      exact ⟨p, List.mem_cons_of_mem _ hp, he⟩

/-- C9: parse totality. `parseLRC` is a total function into sequences; the
empty input yields the empty sequence, and in general the result is empty
exactly when no line of the input matches the timestamp pattern — so
arbitrary and fully-malformed input yields the empty sequence rather than an
error. -/
theorem C9_parse_totality (now : Nat) (content : String) :
    parseLRC now "" = [] ∧
    (parseLRC now content = [] ↔
      ∀ line ∈ splitChar '\n' content.toList, matchLine line = none) := by
  refine ⟨rfl, ?_⟩
  unfold parseLRC
  rw [sortByTimestamp_eq_nil_iff, List.filterMap_eq_nil_iff]
  constructor
  · intro h line hline
    obtain ⟨p, hp, hpe⟩ := exists_mem_withIndex 0 hline
    have hm := h p hp
    rw [Option.map_eq_none'] at hm
    rw [← hpe]
    exact hm
  · intro h p hp
    show (matchLine p.2).map _ = none
    rw [h p.2 (mem_withIndex hp), Option.map_none']

/-- C9 witness: the theorem applied to arbitrary malformed text, which parses
to the empty sequence. -/
theorem C9_parse_totality_witness : parseLRC 0 ("just some words") = [] :=
  (C9_parse_totality 0 ("just some words")).2.mpr (by decide)
